import Mathlib

/-!
# Bond core — shallow embedding and verification

A shallow embedding of the Bond blockchain core (`bond-core/src`): the data
model (`block.rs`, `transaction.rs`, `utxo.rs`), the chain-state engine
(`consensus.rs`), the proof-of-work miner and difficulty logic (`mining.rs`)
and the byte-code script interpreter (`script.rs`), together with theorems
settling the specification claims about them.

Modelling conventions:

* 32-byte hashes, Merkle roots and difficulty targets are modelled as `Nat`
  (the big-endian numeric value of the byte array); the byte-wise
  lexicographic comparison of two equal-length arrays coincides with `≤` on
  those numbers.
* Machine integers (`u32`, `u64`, `usize`) are modelled as `Nat`; where the
  source does checked arithmetic the `u64::MAX` bound appears explicitly,
  and where it wraps (the miner's nonce) the wrap is modelled explicitly.
* External library calls — Keccak-256 (`sha3`), canonical serialization
  (`bincode`) — are not code of this repository; they enter as opaque-to-us
  function parameters bundled in an `Env` record, so every theorem holds for
  all implementations of those primitives.  The source's `f64` difficulty
  scaling pipeline (`adjust_target` and the clamp) is likewise abstracted
  into `Env.adjustedTarget`; no claim depends on its numeric value.
* Rust `&mut self` methods that can mutate state and then fail are modelled
  as functions returning a pair of the `Except` result and the final state,
  so that partial mutation on the error path is observable, exactly as in
  the source.
-/

namespace Bond

/-! ## Data model (`utxo.rs`, `transaction.rs`, `block.rs`) -/

/-- `Script` from `utxo.rs`: raw byte-code, bytes as `Nat` (< 256). -/
structure Script where
  code : List Nat
  deriving DecidableEq

/-- `Script::new`. -/
def Script.new (code : List Nat) : Script := ⟨code⟩

/-- `Script::empty`. -/
def Script.empty : Script := ⟨[]⟩

/-- `UtxoId` from `utxo.rs`: the creating transaction's hash (32-byte
Keccak digest, modelled as its big-endian value) and the output index. -/
structure UtxoId where
  txHash : Nat
  outputIndex : Nat
  deriving DecidableEq

/-- `UtxoId::COINBASE`: the sentinel reference used by coinbase inputs. -/
def UtxoId.COINBASE : UtxoId := ⟨0, 0xFFFFFFFF⟩

/-- `TransactionInput` from `transaction.rs`. -/
structure TransactionInput where
  previousOutput : UtxoId
  scriptSig : Script
  sequence : Nat
  deriving DecidableEq

/-- `TransactionOutput` from `transaction.rs`. -/
structure TransactionOutput where
  value : Nat
  scriptPubkey : Script
  deriving DecidableEq

/-- `Transaction` from `transaction.rs`; the `chrono` timestamp is modelled
as an integer (Unix seconds). -/
structure Transaction where
  version : Nat
  inputs : List TransactionInput
  outputs : List TransactionOutput
  locktime : Nat
  timestamp : Int
  deriving DecidableEq

/-- `BlockHeader` from `block.rs`. -/
structure BlockHeader where
  version : Nat
  previousHash : Nat
  merkleRoot : Nat
  timestamp : Int
  difficultyTarget : Nat
  nonce : Nat
  deriving DecidableEq

/-- `Block` from `block.rs`. -/
structure Block where
  header : BlockHeader
  transactions : List Transaction
  deriving DecidableEq

/-- `BondError` from `error.rs` (the string payloads are kept). -/
inductive BondError where
  | InvalidBlockHash (expected actual : String)
  | InvalidProofOfWork (hash target : String)
  | InvalidTransaction (reason : String)
  | InvalidUtxo (reason : String)
  | ScriptExecutionFailed (reason : String)
  | InsufficientFunds (required available : Nat)
  | DoubleSpending (utxoId : String)
  | CryptographicError (reason : String)
  | SerializationError (msg : String)
  | JsonError (msg : String)
  | ArithmeticOverflow (operation : String)
  deriving DecidableEq

/-! ## Display helpers (`hex::encode`, `Display` impls)

`hex::encode` of a 32-byte array is 64 lowercase hex digits; on our numeric
model of the array that is the value's base-16 digits padded to 64. -/

/-- One lowercase hex digit. -/
def hexDigit (n : Nat) : Char :=
  if n < 10 then Char.ofNat (48 + n) else Char.ofNat (87 + n)

/-- The big-endian byte decomposition of `n` into `w` bytes. -/
def natToBytesBE (w n : Nat) : List Nat :=
  (List.range w).map (fun i => n / 256 ^ (w - 1 - i) % 256)

/-- The little-endian byte decomposition of `n` into `w` bytes
(`u32::to_le_bytes` etc.). -/
def natToBytesLE (w n : Nat) : List Nat :=
  (List.range w).map (fun i => n / 256 ^ i % 256)

/-- `hex::encode` of a byte list. -/
def hexEncode (bytes : List Nat) : String :=
  String.mk (bytes.flatMap (fun b => [hexDigit (b / 16), hexDigit (b % 16)]))

/-- `Display` of a 32-byte hash / Merkle root / difficulty target. -/
def hash32Hex (n : Nat) : String := hexEncode (natToBytesBE 32 n)

/-- `Display for UtxoId`: `tx_hash:output_index`. -/
def UtxoId.toDisplay (u : UtxoId) : String :=
  hash32Hex u.txHash ++ (r":") ++ toString u.outputIndex

/-! ## Transactions (`transaction.rs`) -/

/-- `Transaction::is_coinbase`: exactly one input whose reference is the
`COINBASE` sentinel (`inputs.len() == 1 && inputs[0].previous_output ==
COINBASE`). -/
def Transaction.isCoinbase (tx : Transaction) : Bool :=
  tx.inputs.length == 1 &&
    tx.inputs.head?.map (·.previousOutput) == some UtxoId.COINBASE

/-- `Transaction::validate`: structural validation, with the source's check
order. The final loop over outputs errors at the first zero-value output;
since every such error carries the same payload this is the same result as
the `any` formulation used here. -/
def Transaction.validate (tx : Transaction) : Except BondError Unit :=
  if tx.version == 0 then
    .error (.InvalidTransaction (r"Transaction version cannot be zero"))
  else if !tx.isCoinbase && tx.inputs.isEmpty then
    .error (.InvalidTransaction
      (r"Non-coinbase transaction must have at least one input"))
  else if tx.outputs.isEmpty then
    .error (.InvalidTransaction (r"Transaction must have at least one output"))
  else if tx.isCoinbase && tx.inputs.length != 1 then
    .error (.InvalidTransaction
      (r"Coinbase transaction must have exactly one input"))
  else if tx.outputs.any (fun o => o.value == 0) then
    .error (.InvalidTransaction
      (r"Transaction output cannot have zero value"))
  else
    .ok ()

/-- `Transaction::coinbase`: one input referencing `COINBASE` with sequence
`0xFFFFFFFF` carrying the extra data, one output of the reward. -/
def Transaction.coinbase (reward : Nat) (extraData : List Nat)
    (now : Int) : Transaction :=
  { version := 1
    inputs := [{ previousOutput := UtxoId.COINBASE
                 scriptSig := Script.new extraData
                 sequence := 0xFFFFFFFF }]
    outputs := [{ value := reward, scriptPubkey := Script.new [] }]
    locktime := 0
    timestamp := now }

/-! ## C5 — structural validation characterization -/

/-- C5: `Transaction::validate` errs exactly on: zero version; non-coinbase
with zero inputs; zero outputs; coinbase with ≠ 1 input; a zero-valued
output — and `is_coinbase` holds exactly on a single `COINBASE` input. -/
theorem validate_structural_characterization (tx : Transaction) :
    (tx.validate = .ok () ↔
      ¬(tx.version = 0 ∨
        (tx.isCoinbase = false ∧ tx.inputs = []) ∨
        tx.outputs = [] ∨
        (tx.isCoinbase = true ∧ tx.inputs.length ≠ 1) ∨
        (∃ o ∈ tx.outputs, o.value = 0))) ∧
    (tx.isCoinbase = true ↔
      ∃ i, tx.inputs = [i] ∧ i.previousOutput = UtxoId.COINBASE) := by
  constructor
  · unfold Transaction.validate
    split_ifs with h1 h2 h3 h4 h5 <;>
      simp_all [List.isEmpty_iff, List.any_eq_true]
  · unfold Transaction.isCoinbase
    cases hi : tx.inputs with
    | nil => simp [hi]
    | cons a tl =>
      cases tl with
      | nil => simp [hi]
      | cons b tl2 => simp [hi]

/-! ## Script interpreter (`script.rs`) -/

/-- `ScriptResult` from `script.rs`. -/
inductive ScriptResult where
  | Success
  | Failure
  | Error (msg : String)
  deriving DecidableEq

/-- `ScriptContext` from `script.rs`. -/
structure ScriptContext where
  blockHeight : Nat
  timestamp : Nat
  txHash : List Nat
  inputIndex : Nat
  deriving DecidableEq

/-- `ScriptInterpreter` from `script.rs`. -/
structure ScriptInterpreter where
  maxOps : Nat
  maxStackSize : Nat
  deriving DecidableEq

/-- `ScriptInterpreter::new`: default limits. -/
def ScriptInterpreter.new : ScriptInterpreter := ⟨1000, 100⟩

/-- `ScriptInterpreter::with_limits`. -/
def ScriptInterpreter.withLimits (maxOps maxStackSize : Nat) :
    ScriptInterpreter := ⟨maxOps, maxStackSize⟩

/-- `Stack` from `script.rs`: byte-string items (top = list head) and the
configured bound. -/
structure Stack where
  items : List (List Nat)
  maxSize : Nat
  deriving DecidableEq

/-- `Stack::new`. -/
def Stack.new (maxSize : Nat) : Stack := ⟨[], maxSize⟩

/-- `Stack::push`: fails with `ScriptExecutionFailed` when the stack
already holds `max_size` items. -/
def Stack.push (s : Stack) (item : List Nat) : Except BondError Stack :=
  if s.maxSize ≤ s.items.length then
    .error (.ScriptExecutionFailed (r"Stack overflow"))
  else
    .ok ⟨item :: s.items, s.maxSize⟩

/-- `Stack::pop`: the popped item (if any) and the remaining stack. -/
def Stack.pop (s : Stack) : Option (List Nat) × Stack :=
  match s.items with
  | [] => (none, s)
  | a :: rest => (some a, ⟨rest, s.maxSize⟩)

/-- `Stack::top`. -/
def Stack.top (s : Stack) : Option (List Nat) := s.items.head?

/-- `Stack::size`. -/
def Stack.size (s : Stack) : Nat := s.items.length

/-- `ScriptInterpreter::is_true`: non-empty and containing a non-zero
byte. -/
def isTrue (data : List Nat) : Bool :=
  !data.isEmpty && data.any (fun b => b != 0)

/-- `u32::from_le_bytes` on a 4-byte list. -/
def u32FromLeBytes (l : List Nat) : Nat :=
  l.getD 0 0 + 256 * l.getD 1 0 + 65536 * l.getD 2 0 + 16777216 * l.getD 3 0

/-- `ScriptInterpreter::execute_opcode`: one opcode applied to the stack.
`pc` is the program counter already advanced past the opcode byte; the
returned `Nat` is the number of operand bytes consumed (the source advances
`*pc` by it in the PUSH_N arm and leaves it unchanged elsewhere).  A failing
`Stack::push` propagates through the `Except` layer (the `?` operator in
the source), it does not become a `ScriptResult`. -/
def executeOpcode (opcode : Nat) (stack : Stack) (pc : Nat)
    (script : List Nat) (ctx : ScriptContext) :
    Except BondError (ScriptResult × Stack × Nat) :=
  if 0x01 ≤ opcode ∧ opcode ≤ 0x4b then
    -- PUSH_N: the next `opcode` bytes of the script are one item
    if script.length < pc + opcode then
      .ok (.Error (r"Script truncated"), stack, 0)
    else
      match stack.push ((script.drop pc).take opcode) with
      | .error e => .error e
      | .ok s2 => .ok (.Success, s2, opcode)
  else if opcode == 0x00 then
    match stack.push [] with
    | .error e => .error e
    | .ok s2 => .ok (.Success, s2, 0)
  else if opcode == 0x51 then
    match stack.push [1] with
    | .error e => .error e
    | .ok s2 => .ok (.Success, s2, 0)
  else if opcode == 0x76 then
    match stack.top with
    | some t =>
      match stack.push t with
      | .error e => .error e
      | .ok s2 => .ok (.Success, s2, 0)
    | none => .ok (.Error (r"Cannot duplicate empty stack"), stack, 0)
  else if opcode == 0x87 then
    if stack.size < 2 then
      .ok (.Error (r"Not enough items for OP_EQUAL"), stack, 0)
    else
      let p1 := stack.pop
      let p2 := p1.2.pop
      match p2.2.push (if p1.1.getD [] == p2.1.getD [] then [1] else [0]) with
      | .error e => .error e
      | .ok s3 => .ok (.Success, s3, 0)
  else if opcode == 0x69 then
    match stack.top with
    | some t =>
      if isTrue t then .ok (.Success, stack.pop.2, 0)
      else .ok (.Failure, stack, 0)
    | none => .ok (.Error (r"Cannot verify empty stack"), stack, 0)
  else if opcode == 0xac then
    if stack.size < 2 then
      .ok (.Error (r"Not enough items for OP_CHECKSIG"), stack, 0)
    else
      let p1 := stack.pop
      let p2 := p1.2.pop
      match p2.2.push [1] with
      | .error e => .error e
      | .ok s3 => .ok (.Success, s3, 0)
  else if opcode == 0xf0 then
    match stack.pop with
    | (some requiredBytes, s1) =>
      if requiredBytes.length != 4 then
        .ok (.Error (r"Invalid block height format"), s1, 0)
      else
        match s1.push
            (if u32FromLeBytes requiredBytes ≤ ctx.blockHeight then [1]
             else [0]) with
        | .error e => .error e
        | .ok s2 => .ok (.Success, s2, 0)
    | (none, s1) =>
      .ok (.Error (r"Cannot check block height on empty stack"), s1, 0)
  else
    .ok (.Error ((r"Unknown opcode: 0x") ++ hexEncode [opcode]), stack, 0)

/-- The `while pc < script.len()` loop of `ScriptInterpreter::execute`:
count the operation, dispatch the opcode, stop on `Failure` / `Error`, and
at end of script apply the termination rule on the final stack. -/
def runLoop (maxOps : Nat) (script : List Nat) (ctx : ScriptContext)
    (stack : Stack) (pc opCount : Nat) : Except BondError ScriptResult :=
  if hlt : pc < script.length then
    if maxOps < opCount + 1 then .ok (.Error (r"Operation limit exceeded"))
    else
      match executeOpcode (script.get ⟨pc, hlt⟩) stack (pc + 1) script
          ctx with
      | .error e => .error e
      | .ok (.Success, stack2, delta) =>
        runLoop maxOps script ctx stack2 (pc + 1 + delta) (opCount + 1)
      | .ok (.Failure, _, _) => .ok .Failure
      | .ok (.Error msg, _, _) => .ok (.Error msg)
  else
    if stack.size == 1 then
      if isTrue (stack.top.getD []) then .ok .Success else .ok .Failure
    else
      .ok (.Error (r"Stack must have exactly one item at end"))
termination_by script.length - pc
decreasing_by
  omega

/-- `ScriptInterpreter::execute`: fresh stack, program counter 0, operation
counter 0. -/
def ScriptInterpreter.execute (interp : ScriptInterpreter)
    (script : List Nat) (ctx : ScriptContext) :
    Except BondError ScriptResult :=
  runLoop interp.maxOps script ctx (Stack.new interp.maxStackSize) 0 0

/-! ## C2 — termination rule of `execute` -/

/-- C2: once the program counter has reached the end of the script with no
earlier `Failure` or `Error`, the loop of `execute` returns `Success` iff
the stack holds exactly one item that is true, `Failure` iff it holds
exactly one item that is not true, and `Error` otherwise. -/
theorem execute_termination_rule (maxOps : Nat) (script : List Nat)
    (ctx : ScriptContext) (stack : Stack) (pc opCount : Nat)
    (hend : script.length ≤ pc) :
    (runLoop maxOps script ctx stack pc opCount = .ok .Success ↔
      stack.size = 1 ∧ isTrue (stack.top.getD []) = true) ∧
    (runLoop maxOps script ctx stack pc opCount = .ok .Failure ↔
      stack.size = 1 ∧ isTrue (stack.top.getD []) = false) ∧
    (runLoop maxOps script ctx stack pc opCount =
        .ok (.Error (r"Stack must have exactly one item at end")) ↔
      stack.size ≠ 1) := by
  have hnot : ¬pc < script.length := by omega
  rw [runLoop]
  simp only [hnot, dite_false]
  by_cases hsz : stack.size = 1
  · by_cases htr : isTrue (stack.top.getD []) = true <;>
      simp [hsz, htr]
  · simp [hsz]

/-- Witness for C2: an ended script with a single true item on the stack. -/
theorem execute_termination_rule_witness :
    ([] : List Nat).length ≤ 0 ∧
      (runLoop 1000 [] ⟨0, 0, [], 0⟩ ⟨[[1]], 100⟩ 0 0 = .ok .Success ↔
        Stack.size ⟨[[1]], 100⟩ = 1 ∧
          isTrue ((Stack.top ⟨[[1]], 100⟩).getD []) = true) :=
  ⟨by decide,
   (execute_termination_rule 1000 [] ⟨0, 0, [], 0⟩ ⟨[[1]], 100⟩ 0 0
     (by decide)).1⟩

/-! ## C3 — resource limits

The operation limit is reported in-band as `ScriptResult::Error`, but a
`Stack::push` beyond `max_stack_size` fails in the `Except` layer
(`BondError::ScriptExecutionFailed`), which `execute` propagates via `?` —
it is *not* one of the three `ScriptResult` outcomes. -/

/-- Counterexample to C3 as stated: with `with_limits(1000, 0)` a single
`OP_0` push makes `execute` return an `Err(ScriptExecutionFailed)` at the
Rust `Result` layer, not the `Error` outcome of the script result. -/
theorem stack_overflow_is_not_script_error :
    (ScriptInterpreter.withLimits 1000 0).execute [0x00] ⟨0, 0, [], 0⟩ =
      .error (.ScriptExecutionFailed (r"Stack overflow")) := by
  rw [ScriptInterpreter.execute, runLoop]
  simp [executeOpcode, Stack.push, Stack.new, ScriptInterpreter.withLimits]

/-- C3 amended: exceeding the operation limit yields the `Error` outcome of
the script result, while pushing onto a full stack yields a
`ScriptExecutionFailed` error in the `Err` channel of `execute` (not a
`ScriptResult`), and the loop then surfaces exactly that error. -/
theorem limits_amended (maxOps : Nat) (script : List Nat)
    (ctx : ScriptContext) (stack : Stack) (pc opCount : Nat)
    (item : List Nat)
    (hpc : pc < script.length) (hops : maxOps ≤ opCount)
    (hfull : stack.maxSize ≤ stack.items.length) :
    runLoop maxOps script ctx stack pc opCount =
      .ok (.Error (r"Operation limit exceeded")) ∧
    stack.push item = .error (.ScriptExecutionFailed (r"Stack overflow")) := by
  constructor
  · rw [runLoop]
    have : maxOps < opCount + 1 := by omega
    simp [hpc, this]
  · rw [Stack.push]
    simp [hfull]

/-- Witness for the amended C3. -/
theorem limits_amended_witness :
    (0 : Nat) < ([0x51] : List Nat).length ∧ (5 : Nat) ≤ 5 ∧
      Stack.maxSize ⟨[[1]], 1⟩ ≤ (Stack.items ⟨[[1]], 1⟩).length ∧
      (runLoop 5 [0x51] ⟨0, 0, [], 0⟩ ⟨[[1]], 1⟩ 0 5 =
        .ok (.Error (r"Operation limit exceeded")) ∧
      Stack.push ⟨[[1]], 1⟩ [2] =
        .error (.ScriptExecutionFailed (r"Stack overflow"))) :=
  ⟨by decide, by decide, by decide,
   limits_amended 5 [0x51] ⟨0, 0, [], 0⟩ ⟨[[1]], 1⟩ 0 5 [2]
     (by decide) (by decide) (by decide)⟩

/-! ## External primitives

Keccak-256 and `bincode` serialization come from external crates (`sha3`,
`bincode`); the `f64` difficulty-scaling pipeline uses host floating point.
They are bundled here as function parameters so the theorems quantify over
every implementation of them. -/

/-- The external primitives consumed by the core:

* `txHash` — `Transaction::hash` (Keccak-256 of the bincode serialization);
* `headerHash` — `BlockHeader::hash`;
* `blockSize` — `Block::size` (bincode length);
* `keccakPair` — Keccak-256 of the concatenation of two 32-byte hashes, as
  used by `Block::calculate_merkle_root`;
* `serializeTx` / `keccakBytes` — bincode serialization of a transaction
  and Keccak-256 over raw bytes, as used by `Transaction::signature_hash`;
* `adjustedTarget current actual_time target_time` — the result of
  `Consensus::adjust_target(current, clamp(actual/target, 0.25, 4.0))`,
  whose `f64` arithmetic is abstracted. -/
structure Env where
  txHash : Transaction → Nat
  headerHash : BlockHeader → Nat
  blockSize : Block → Nat
  keccakPair : Nat → Nat → Nat
  serializeTx : Transaction → List Nat
  keccakBytes : List Nat → List Nat
  adjustedTarget : Nat → Nat → Nat → Nat

/-! ## Merkle root (`block.rs`) -/

/-- One level of `Block::calculate_merkle_root`'s tree loop: `chunks(2)`,
hashing `chunk[0] ‖ chunk[1]`, or `chunk[0] ‖ chunk[0]` for a trailing odd
chunk. -/
def merkleLevel (f : Nat → Nat → Nat) : List Nat → List Nat
  | [] => []
  | [a] => [f a a]
  | a :: b :: rest => f a b :: merkleLevel f rest

/-- A level has `⌈n/2⌉` hashes. -/
theorem merkleLevel_length (f : Nat → Nat → Nat) :
    ∀ l : List Nat, (merkleLevel f l).length = (l.length + 1) / 2
  | [] => by simp [merkleLevel]
  | [_] => by simp [merkleLevel]
  | _ :: _ :: rest => by
    have ih := merkleLevel_length f rest
    simp [merkleLevel, ih]
    omega

/-- The `while hashes.len() > 1` loop of `calculate_merkle_root`. -/
def merkleLoop (f : Nat → Nat → Nat) (hashes : List Nat) : List Nat :=
  if 1 < hashes.length then merkleLoop f (merkleLevel f hashes) else hashes
termination_by hashes.length
decreasing_by
  have := merkleLevel_length f hashes
  omega

/-- `Block::calculate_merkle_root`: zero for an empty transaction list,
otherwise the pairwise-Keccak reduction of the transaction hashes. -/
def calculateMerkleRoot (env : Env) (block : Block) : Nat :=
  if block.transactions.isEmpty then 0
  else (merkleLoop env.keccakPair (block.transactions.map env.txHash)).headD 0

/-! ### Reference Merkle definition

Following the spec's words: pair adjacent hashes and hash each
concatenation; if the level has odd count, duplicate the last hash before
pairing; iterate until one hash remains; an empty transaction list yields
the all-zero root. -/

/-- Pair adjacent hashes of an (even-length) level. -/
def pairAdjacent (f : Nat → Nat → Nat) : List Nat → List Nat
  | a :: b :: rest => f a b :: pairAdjacent f rest
  | _ => []

/-- One reference level: duplicate the last hash when the count is odd,
then pair adjacent hashes. -/
def specLevel (f : Nat → Nat → Nat) (l : List Nat) : List Nat :=
  pairAdjacent f (if l.length % 2 = 1 then l ++ [l.getLastD 0] else l)

theorem pairAdjacent_length (f : Nat → Nat → Nat) :
    ∀ l : List Nat, (pairAdjacent f l).length = l.length / 2
  | [] => by simp [pairAdjacent]
  | [_] => by simp [pairAdjacent]
  | _ :: _ :: rest => by
    have ih := pairAdjacent_length f rest
    simp [pairAdjacent, ih]
    omega

theorem specLevel_length (f : Nat → Nat → Nat) (l : List Nat) :
    (specLevel f l).length = (l.length + 1) / 2 := by
  rw [specLevel]
  split
  · rw [pairAdjacent_length]
    simp only [List.length_append, List.length_cons, List.length_nil]
  · rw [pairAdjacent_length]
    omega

/-- The reference iteration until one hash remains. -/
def specMerkleLoop (f : Nat → Nat → Nat) (l : List Nat) : List Nat :=
  if 1 < l.length then specMerkleLoop f (specLevel f l) else l
termination_by l.length
decreasing_by
  have := specLevel_length f l
  omega

/-- The reference Merkle root over a transaction list, following the
spec's words. -/
def specMerkleRoot (env : Env) (txs : List Transaction) : Nat :=
  if txs.isEmpty then 0
  else (specMerkleLoop env.keccakPair (txs.map env.txHash)).headD 0

/-- The code's level step agrees with the reference level step. -/
theorem merkleLevel_eq_specLevel (f : Nat → Nat → Nat) :
    ∀ l : List Nat, merkleLevel f l = specLevel f l
  | [] => by simp [merkleLevel, specLevel, pairAdjacent]
  | [a] => by simp [merkleLevel, specLevel, pairAdjacent]
  | a :: b :: rest => by
    have ih := merkleLevel_eq_specLevel f rest
    rw [merkleLevel, ih, specLevel, specLevel]
    rcases Nat.even_or_odd rest.length with he | ho
    · have h2 : (a :: b :: rest).length % 2 = rest.length % 2 := by
        simp [List.length_cons]
        omega
      have hr : rest.length % 2 = 0 := Nat.even_iff.mp he
      simp only [h2, hr]
      norm_num [pairAdjacent]
    · have hr : rest.length % 2 = 1 := Nat.odd_iff.mp ho
      have h2 : (a :: b :: rest).length % 2 = 1 := by
        simp [List.length_cons]
        omega
      have hne : rest ≠ [] := by
        intro h
        rw [h] at hr
        simp at hr
      simp only [h2, hr, if_pos rfl]
      have hlast : (a :: b :: rest).getLastD 0 = rest.getLastD 0 := by
        rw [List.getLastD_cons, List.getLastD_cons]
        cases rest with
        | nil => exact absurd rfl hne
        | cons c tl => rw [List.getLastD_cons, List.getLastD_cons]
      rw [hlast]
      simp [pairAdjacent]

/-- The code's tree loop agrees with the reference iteration. -/
theorem merkleLoop_eq_specMerkleLoop (f : Nat → Nat → Nat)
    (l : List Nat) : merkleLoop f l = specMerkleLoop f l := by
  rw [merkleLoop, specMerkleLoop]
  by_cases h : 1 < l.length
  · simp only [h, if_true]
    rw [merkleLevel_eq_specLevel]
    exact merkleLoop_eq_specMerkleLoop f (specLevel f l)
  · simp [h]
termination_by l.length
decreasing_by
  have := specLevel_length f l
  omega

/-! ## C4 — Merkle root equals the reference definition -/

/-- C4: `calculate_merkle_root` equals the reference Merkle definition; in
particular the empty block yields the zero root and a single-transaction
block yields that transaction's hash. -/
theorem merkle_root_matches_reference (env : Env) (block : Block) :
    calculateMerkleRoot env block = specMerkleRoot env block.transactions ∧
    (block.transactions = [] → calculateMerkleRoot env block = 0) ∧
    (∀ tx, block.transactions = [tx] →
      calculateMerkleRoot env block = env.txHash tx) := by
  refine ⟨?_, ?_, ?_⟩
  · rw [calculateMerkleRoot, specMerkleRoot, merkleLoop_eq_specMerkleLoop]
  · intro h
    simp [calculateMerkleRoot, h]
  · intro tx h
    rw [calculateMerkleRoot, h]
    rw [merkleLoop]
    simp

/-- A sample environment used to instantiate witnesses on concrete data. -/
def sampleEnv : Env where
  txHash := fun tx => tx.locktime
  headerHash := fun _ => 0
  blockSize := fun _ => 0
  keccakPair := fun a b => 1 + a + 2 * b
  serializeTx := fun tx => [tx.version]
  keccakBytes := fun l => l
  adjustedTarget := fun c _ _ => c + 1

/-- A sample single-transaction block used by witnesses. -/
def sampleBlock1 : Block where
  header := { version := 1, previousHash := 0, merkleRoot := 7,
              timestamp := 0, difficultyTarget := 5, nonce := 0 }
  transactions := [Transaction.coinbase 50 [] 0]

/-- Witness for C4 at a concrete single-transaction block. -/
theorem merkle_root_matches_reference_witness :
    sampleBlock1.transactions = [Transaction.coinbase 50 [] 0] ∧
      calculateMerkleRoot sampleEnv sampleBlock1 =
        sampleEnv.txHash (Transaction.coinbase 50 [] 0) :=
  ⟨by decide,
   (merkle_root_matches_reference sampleEnv sampleBlock1).2.2
     (Transaction.coinbase 50 [] 0) (by decide)⟩

/-! ## Signature hash (`transaction.rs`) -/

/-- `UtxoId::to_bytes`: the 32 hash bytes followed by the little-endian
output index. -/
def UtxoId.toBytes (u : UtxoId) : List Nat :=
  natToBytesBE 32 u.txHash ++ natToBytesLE 4 u.outputIndex

/-- The copy made by `Transaction::signature_hash`: every input's
`script_sig` replaced by `Script::new(vec![])`. -/
def clearScriptSigs (tx : Transaction) : Transaction :=
  { tx with
    inputs := tx.inputs.map
      (fun i => ⟨i.previousOutput, Script.new [], i.sequence⟩) }

/-- `Transaction::signature_hash`: Keccak-256 over the serialization of the
script-cleared transaction followed by the target input's serialized
reference. -/
def signatureHash (env : Env) (tx : Transaction)
    (input : TransactionInput) : List Nat :=
  env.keccakBytes
    (env.serializeTx (clearScriptSigs tx) ++ input.previousOutput.toBytes)

/-- Two transactions that differ at most in the `script_sig` fields of
their inputs. -/
def SameExceptScriptSig (tx tx' : Transaction) : Prop :=
  tx.version = tx'.version ∧ tx.outputs = tx'.outputs ∧
  tx.locktime = tx'.locktime ∧ tx.timestamp = tx'.timestamp ∧
  tx.inputs.length = tx'.inputs.length ∧
  ∀ i (h : i < tx.inputs.length) (h' : i < tx'.inputs.length),
    (tx.inputs.get ⟨i, h⟩).previousOutput =
      (tx'.inputs.get ⟨i, h'⟩).previousOutput ∧
    (tx.inputs.get ⟨i, h⟩).sequence = (tx'.inputs.get ⟨i, h'⟩).sequence

/-- Clearing the authorization scripts erases every difference between two
transactions that agree outside `script_sig`. -/
theorem clearScriptSigs_eq_of_sameExceptScriptSig {tx tx' : Transaction}
    (h : SameExceptScriptSig tx tx') :
    clearScriptSigs tx = clearScriptSigs tx' := by
  obtain ⟨hv, ho, hl, ht, hlen, hfields⟩ := h
  unfold clearScriptSigs
  have hinputs : tx.inputs.map
      (fun i => (⟨i.previousOutput, Script.new [], i.sequence⟩ :
        TransactionInput)) =
      tx'.inputs.map
        (fun i => (⟨i.previousOutput, Script.new [], i.sequence⟩ :
          TransactionInput)) := by
    apply List.ext_get
    · simp [hlen]
    · intro n h1 h2
      simp only [List.get_eq_getElem, List.getElem_map]
      obtain ⟨hp, hs⟩ := hfields n (by simpa using h1) (by simpa using h2)
      simp only [List.get_eq_getElem] at hp hs
      rw [hp, hs]
  rw [Transaction.mk.injEq]
  exact ⟨hv, hinputs, ho, hl, ht⟩

/-! ## C8 — signature hash ignores authorization scripts -/

/-- C8: `signature_hash(tx, input)` is invariant under any change to the
`script_sig` of any input: corresponding inputs of two transactions that
differ only in authorization scripts have equal signature hashes. -/
theorem signature_hash_ignores_script_sigs (env : Env)
    (tx tx' : Transaction) (h : SameExceptScriptSig tx tx') (i : Nat)
    (hi : i < tx.inputs.length) (hi' : i < tx'.inputs.length) :
    signatureHash env tx (tx.inputs.get ⟨i, hi⟩) =
      signatureHash env tx' (tx'.inputs.get ⟨i, hi'⟩) := by
  unfold signatureHash
  rw [clearScriptSigs_eq_of_sameExceptScriptSig h]
  obtain ⟨-, -, -, -, -, hfields⟩ := h
  rw [UtxoId.toBytes, UtxoId.toBytes, (hfields i hi hi').1]

/-- A transaction and its variant with a different authorization script,
used by the C8 witness. -/
def txSigA : Transaction :=
  { version := 1, inputs := [⟨⟨9, 0⟩, ⟨[1, 2]⟩, 3⟩],
    outputs := [⟨5, ⟨[]⟩⟩], locktime := 4, timestamp := 0 }

/-- `txSigA` with its input's `script_sig` replaced. -/
def txSigB : Transaction :=
  { version := 1, inputs := [⟨⟨9, 0⟩, ⟨[7, 7, 7]⟩, 3⟩],
    outputs := [⟨5, ⟨[]⟩⟩], locktime := 4, timestamp := 0 }

/-- Witness for C8 at concrete transactions differing only in
`script_sig`. -/
theorem signature_hash_ignores_script_sigs_witness :
    SameExceptScriptSig txSigA txSigB ∧
      signatureHash sampleEnv txSigA (txSigA.inputs.get ⟨0, by decide⟩) =
        signatureHash sampleEnv txSigB (txSigB.inputs.get ⟨0, by decide⟩) := by
  have h : SameExceptScriptSig txSigA txSigB := by
    refine ⟨rfl, rfl, rfl, rfl, rfl, ?_⟩
    intro i h1 h2
    have : i = 0 := by
      simp [txSigA] at h1
      omega
    subst this
    exact ⟨rfl, rfl⟩
  exact ⟨h,
    signature_hash_ignores_script_sigs sampleEnv txSigA txSigB h 0
      (by decide) (by decide)⟩

/-! ## Miner (`mining.rs`) -/

/-- `BlockHash::meets_difficulty_target`: byte-wise `self.0 <= target.0`,
which on equal-length arrays is big-endian numeric `≤`. -/
def meetsDifficultyTarget (hash target : Nat) : Bool := decide (hash ≤ target)

/-- The size of the `u64` nonce space. -/
def NONCE_SPACE : Nat := 2 ^ 64

/-- The error `mine_block` returns when the shared stop flag is observed
set. -/
def miningStoppedError (header : BlockHeader) : BondError :=
  .InvalidProofOfWork (r"Mining stopped") (hash32Hex header.difficultyTarget)

/-- The error `mine_block` returns when the nonce wraps back to 0. -/
def nonceExhaustedError (header : BlockHeader) : BondError :=
  .InvalidProofOfWork (r"Nonce space exhausted")
    (hash32Hex header.difficultyTarget)

/-- The `loop` of `Miner::mine_block`.  `flag n` is the value of the shared
atomic `should_stop` as observed at the top of the iteration that tries
nonce `n` (the flag is written concurrently; the loop only ever reads it
once per iteration, so a per-iteration valuation models it exactly).
`remaining` counts the nonces still available after the current one; it is
`0` exactly when `nonce = 2^64 - 1`, where `nonce.wrapping_add(1) == 0`
makes the source return the exhaustion error. -/
def mineAux (env : Env) (flag : Nat → Bool) (header : BlockHeader) :
    Nat → Nat → Except BondError BlockHeader
  | 0, nonce =>
    if flag nonce then .error (miningStoppedError header)
    else if meetsDifficultyTarget (env.headerHash { header with nonce := nonce })
        header.difficultyTarget then
      .ok { header with nonce := nonce }
    else .error (nonceExhaustedError header)
  | r + 1, nonce =>
    if flag nonce then .error (miningStoppedError header)
    else if meetsDifficultyTarget (env.headerHash { header with nonce := nonce })
        header.difficultyTarget then
      .ok { header with nonce := nonce }
    else mineAux env flag header r (nonce + 1)

/-- `Miner::mine_block`: start at nonce 0 and walk the whole 64-bit nonce
space. -/
def mineBlock (env : Env) (flag : Nat → Bool) (header : BlockHeader) :
    Except BondError BlockHeader :=
  mineAux env flag header (NONCE_SPACE - 1) 0

/-- Trichotomy of the mining loop from an arbitrary position. -/
theorem mineAux_cases (env : Env) (flag : Nat → Bool)
    (header : BlockHeader) :
    ∀ (remaining nonce : Nat),
      (∃ n, nonce ≤ n ∧ n ≤ nonce + remaining ∧
        mineAux env flag header remaining nonce =
          .ok { header with nonce := n } ∧
        meetsDifficultyTarget (env.headerHash { header with nonce := n })
          header.difficultyTarget = true ∧ flag n = false) ∨
      ((∃ n, nonce ≤ n ∧ n ≤ nonce + remaining ∧ flag n = true) ∧
        mineAux env flag header remaining nonce =
          .error (miningStoppedError header)) ∨
      mineAux env flag header remaining nonce =
        .error (nonceExhaustedError header)
  | 0, nonce => by
    by_cases hf : flag nonce
    · exact Or.inr (Or.inl ⟨⟨nonce, le_refl _, by omega, hf⟩,
        by simp [mineAux, hf]⟩)
    · by_cases hh : meetsDifficultyTarget
          (env.headerHash { header with nonce := nonce })
          header.difficultyTarget = true
      · exact Or.inl ⟨nonce, le_refl _, by omega,
          by simp [mineAux, hf, hh], hh, by simpa using hf⟩
      · exact Or.inr (Or.inr (by simp [mineAux, hf, hh]))
  | r + 1, nonce => by
    by_cases hf : flag nonce
    · exact Or.inr (Or.inl ⟨⟨nonce, le_refl _, by omega, hf⟩,
        by simp [mineAux, hf]⟩)
    · by_cases hh : meetsDifficultyTarget
          (env.headerHash { header with nonce := nonce })
          header.difficultyTarget = true
      · exact Or.inl ⟨nonce, le_refl _, by omega,
          by simp [mineAux, hf, hh], hh, by simpa using hf⟩
      · have hstep : mineAux env flag header (r + 1) nonce =
            mineAux env flag header r (nonce + 1) := by
          simp [mineAux, hf, hh]
        rcases mineAux_cases env flag header r (nonce + 1) with
          ⟨n, h1, h2, hres, hm, hfn⟩ | ⟨⟨n, h1, h2, hfn⟩, hres⟩ | hres
        · exact Or.inl ⟨n, by omega, by omega, by rw [hstep]; exact hres,
            hm, hfn⟩
        · exact Or.inr (Or.inl ⟨⟨n, by omega, by omega, hfn⟩,
            by rw [hstep]; exact hres⟩)
        · exact Or.inr (Or.inr (by rw [hstep]; exact hres))

/-! ## C6 — mining contract -/

/-- C6: `mine_block` starts at nonce 0, checks the stop flag at the top of
every iteration, and returns either the input header with only the nonce
changed and a hash meeting the difficulty target, or the cancellation
error (only if the flag was observed set), or the exhaustion error when
the 64-bit nonce space wraps; the cancellation and exhaustion errors are
distinct values, so callers can tell a stop from an exhausted search. -/
theorem mine_block_contract (env : Env) (flag : Nat → Bool)
    (header : BlockHeader) :
    ((∃ n, n < NONCE_SPACE ∧
        mineBlock env flag header = .ok { header with nonce := n } ∧
        meetsDifficultyTarget (env.headerHash { header with nonce := n })
          header.difficultyTarget = true ∧ flag n = false) ∨
      ((∃ n, n < NONCE_SPACE ∧ flag n = true) ∧
        mineBlock env flag header = .error (miningStoppedError header)) ∨
      mineBlock env flag header = .error (nonceExhaustedError header)) ∧
    miningStoppedError header ≠ nonceExhaustedError header := by
  constructor
  · rcases mineAux_cases env flag header (NONCE_SPACE - 1) 0 with
      ⟨n, _, h2, hres, hm, hfn⟩ | ⟨⟨n, _, h2, hfn⟩, hres⟩ | hres
    · exact Or.inl ⟨n, by simp [NONCE_SPACE] at h2 ⊢; omega, hres, hm, hfn⟩
    · exact Or.inr (Or.inl ⟨⟨n, by simp [NONCE_SPACE] at h2 ⊢; omega, hfn⟩,
        hres⟩)
    · exact Or.inr (Or.inr hres)
  · simp [miningStoppedError, nonceExhaustedError]

/-! ## Consensus rules (`mining.rs`) -/

/-- `MiningConfig`: the two integer parameters.  The `f64` clamp bounds
(`max_difficulty_adjustment = 4.0`, `min_difficulty_adjustment = 0.25`)
only feed the floating-point scaling pipeline abstracted into
`Env.adjustedTarget`, so they do not appear separately. -/
structure MiningConfig where
  targetBlockTime : Nat
  difficultyAdjustmentPeriod : Nat
  deriving DecidableEq

/-- `MiningConfig::default`. -/
def MiningConfig.default : MiningConfig := ⟨600, 2016⟩

/-- `Consensus` from `mining.rs`. -/
structure Consensus where
  config : MiningConfig
  deriving DecidableEq

/-- `Consensus::new`. -/
def Consensus.new : Consensus := ⟨MiningConfig.default⟩

/-- `Consensus::with_config`. -/
def Consensus.withConfig (config : MiningConfig) : Consensus := ⟨config⟩

/-- The placeholder block used for the (unreachable for a non-zero
retarget period) head/last of an empty adjustment window, where the source
would panic on `adjustment_blocks[0]`. -/
instance : Inhabited Block :=
  ⟨{ header := { version := 0, previousHash := 0, merkleRoot := 0,
                 timestamp := 0, difficultyTarget := 0, nonce := 0 },
     transactions := [] }⟩

/-- `Consensus::calculate_next_difficulty`: below the retarget period the
current target is returned unchanged; otherwise the last
`difficulty_adjustment_period` blocks give `actual_time` (an `i64`
difference cast `as u64`, hence the wrap) and `target_time`, which feed the
abstracted `f64` scaling pipeline. -/
def calculateNextDifficulty (env : Env) (cons : Consensus)
    (blocks : List Block) (current : Nat) : Nat :=
  if blocks.length < cons.config.difficultyAdjustmentPeriod then current
  else
    let window :=
      blocks.drop (blocks.length - cons.config.difficultyAdjustmentPeriod)
    let first := (window.headD default).header.timestamp
    let last := (window.getLastD default).header.timestamp
    let actualTime := ((last - first).emod (2 ^ 64)).toNat
    let targetTime :=
      cons.config.targetBlockTime * cons.config.difficultyAdjustmentPeriod
    env.adjustedTarget current actualTime targetTime

/-- The structural-validation loop over a block's transactions
(`for tx in &self.transactions { tx.validate()?; }`). -/
def validateTxsStructural : List Transaction → Except BondError Unit
  | [] => .ok ()
  | tx :: rest =>
    match tx.validate with
    | .error e => .error e
    | .ok () => validateTxsStructural rest

/-- `Block::validate`: proof-of-work, then Merkle-root recomputation, then
per-transaction structural validation. -/
def Block.validate (env : Env) (block : Block) : Except BondError Unit :=
  if meetsDifficultyTarget (env.headerHash block.header)
      block.header.difficultyTarget then
    if calculateMerkleRoot env block != block.header.merkleRoot then
      .error (.InvalidBlockHash (hash32Hex block.header.merkleRoot)
        (hash32Hex (calculateMerkleRoot env block)))
    else validateTxsStructural block.transactions
  else
    .error (.InvalidProofOfWork (hash32Hex (env.headerHash block.header))
      (hash32Hex block.header.difficultyTarget))

/-- The 4 MB block-size bound of `Consensus::validate_block`. -/
def MAX_BLOCK_SIZE : Nat := 4 * 1024 * 1024

/-- `Consensus::validate_block`.  The second component is the list of
warnings the source prints to stderr: a difficulty-target mismatch is only
warned about (`eprintln!`), never rejected, so the warning list is the only
observable trace of the difficulty check. -/
def Consensus.validateBlock (env : Env) (cons : Consensus) (block : Block)
    (previousBlocks : List Block) : Except BondError Unit × List String :=
  match Block.validate env block with
  | .error e => (.error e, [])
  | .ok () =>
    if MAX_BLOCK_SIZE < env.blockSize block then
      (.error (.InvalidTransaction ((r"Block size ") ++
        toString (env.blockSize block) ++ (r" exceeds maximum ") ++
        toString MAX_BLOCK_SIZE)), [])
    else if cons.config.difficultyAdjustmentPeriod ≤
        previousBlocks.length then
      if block.header.difficultyTarget !=
          calculateNextDifficulty env cons previousBlocks
            block.header.difficultyTarget then
        (.ok (), [(r"Warning: Difficulty target mismatch. Expected: ") ++
          hash32Hex (calculateNextDifficulty env cons previousBlocks
            block.header.difficultyTarget) ++
          (r", Got: ") ++ hash32Hex block.header.difficultyTarget])
      else (.ok (), [])
    else (.ok (), [])

/-! ## C7 — when the difficulty target is recomputed -/

/-- C7 amended: `calculate_next_difficulty` returns the current target
unchanged while the chain holds fewer than `retarget_period` blocks, and
block validation performs the difficulty recomputation and comparison
exactly when the predecessor count is at least the retarget period —
regardless of whether that count is a multiple of the period (the
mismatch is only warned about, so the warning list is its observable). -/
theorem difficulty_recompute_conditions (env : Env) (cons : Consensus)
    (blocks : List Block) (current : Nat) (block : Block)
    (prev : List Block) :
    (blocks.length < cons.config.difficultyAdjustmentPeriod →
      calculateNextDifficulty env cons blocks current = current) ∧
    (prev.length < cons.config.difficultyAdjustmentPeriod →
      (Consensus.validateBlock env cons block prev).2 = []) ∧
    ((Consensus.validateBlock env cons block prev).2 ≠ [] →
      cons.config.difficultyAdjustmentPeriod ≤ prev.length) := by
  refine ⟨?_, ?_, ?_⟩
  · intro h
    rw [calculateNextDifficulty]
    simp [h]
  · intro h
    rw [Consensus.validateBlock]
    have h2 : ¬cons.config.difficultyAdjustmentPeriod ≤ prev.length := by
      omega
    repeat' split
    all_goals try rfl
  · intro h
    by_contra hlt
    rw [Consensus.validateBlock] at h
    repeat' split at h
    all_goals exact h rfl

/-- A consensus instance with retarget period 2, used by the C7
counterexample. -/
def consPeriod2 : Consensus := Consensus.withConfig ⟨600, 2⟩

/-- A trivial predecessor block for the C7 counterexample. -/
def blkPrev : Block :=
  { header := { version := 1, previousHash := 0, merkleRoot := 0,
                timestamp := 0, difficultyTarget := 5, nonce := 0 },
    transactions := [] }

/-- The candidate block of the C7 counterexample: structurally valid, with
a difficulty target the abstracted scaling pipeline does not reproduce. -/
def blkCandidate : Block :=
  { header := { version := 1, previousHash := 0, merkleRoot := 0,
                timestamp := 0, difficultyTarget := 5, nonce := 0 },
    transactions := [] }

/-- Counterexample to C7 as stated: with retarget period 2 and three
predecessors — a chain length that is *not* a multiple of the period —
`validate_block` still recomputes the expected target and emits the
mismatch warning. -/
theorem difficulty_checked_off_retarget_boundary :
    [blkPrev, blkPrev, blkPrev].length %
        consPeriod2.config.difficultyAdjustmentPeriod ≠ 0 ∧
      (Consensus.validateBlock sampleEnv consPeriod2 blkCandidate
        [blkPrev, blkPrev, blkPrev]).2 ≠ [] := by
  exact ⟨by decide, by decide⟩

/-- Witness for the amended C7: below the period the target is unchanged
and no difficulty warning is emitted. -/
theorem difficulty_recompute_conditions_witness :
    ([] : List Block).length <
        Consensus.new.config.difficultyAdjustmentPeriod ∧
      calculateNextDifficulty sampleEnv Consensus.new [] 7 = 7 ∧
      (Consensus.validateBlock sampleEnv Consensus.new blkCandidate []).2 =
        [] :=
  ⟨by decide,
   (difficulty_recompute_conditions sampleEnv Consensus.new [] 7
       blkCandidate []).1 (by decide),
   (difficulty_recompute_conditions sampleEnv Consensus.new [] 7
       blkCandidate []).2.1 (by decide)⟩

/-! ## UTXO index (`consensus.rs`)

The `HashMap<UtxoId, TransactionOutput>` is modelled as an association list
with `HashMap` semantics: `insert` replaces an existing binding, `remove`
returns the removed value.  Every observation the claims use (membership,
lookup, size, sum of values) is order-independent. -/

/-- The UTXO index. -/
abbrev UtxoMap := List (UtxoId × TransactionOutput)

/-- `HashMap::contains_key`. -/
def UtxoMap.containsKey (m : UtxoMap) (k : UtxoId) : Bool :=
  m.any (fun p => p.1 == k)

/-- `HashMap::get`. -/
def UtxoMap.lookup (m : UtxoMap) (k : UtxoId) : Option TransactionOutput :=
  (m.find? (fun p => p.1 == k)).map (·.2)

/-- `HashMap::insert` (replace an existing binding, else add one). -/
def UtxoMap.insert (m : UtxoMap) (k : UtxoId) (v : TransactionOutput) :
    UtxoMap :=
  if UtxoMap.containsKey m k then
    m.map (fun p => if p.1 == k then (k, v) else p)
  else m ++ [(k, v)]

/-- `HashMap::remove`: the removed value (if present) and the remaining
map. -/
def UtxoMap.remove (m : UtxoMap) (k : UtxoId) :
    Option TransactionOutput × UtxoMap :=
  (UtxoMap.lookup m k, m.eraseP (fun p => p.1 == k))

/-! ## Value sums (`transaction.rs`) -/

/-- The checked summation loop of `Transaction::total_input_value`:
`checked_add` fails above `u64::MAX`. -/
def totalInputValueAux (utxoSet : UtxoMap) :
    List TransactionInput → Nat → Except BondError Nat
  | [], total => .ok total
  | i :: rest, total =>
    match UtxoMap.lookup utxoSet i.previousOutput with
    | some utxo =>
      if 2 ^ 64 - 1 < total + utxo.value then
        .error (.ArithmeticOverflow (r"input value sum"))
      else totalInputValueAux utxoSet rest (total + utxo.value)
    | none =>
      .error (.InvalidTransaction ((r"Referenced UTXO not found: ") ++
        i.previousOutput.toDisplay))

/-- `Transaction::total_input_value`. -/
def Transaction.totalInputValue (tx : Transaction) (utxoSet : UtxoMap) :
    Except BondError Nat :=
  if tx.isCoinbase then .ok 0
  else totalInputValueAux utxoSet tx.inputs 0

/-- The checked summation loop of `Transaction::total_output_value`. -/
def totalOutputValueAux : List TransactionOutput → Nat → Except BondError Nat
  | [], total => .ok total
  | o :: rest, total =>
    if 2 ^ 64 - 1 < total + o.value then
      .error (.ArithmeticOverflow (r"output value sum"))
    else totalOutputValueAux rest (total + o.value)

/-- `Transaction::total_output_value`. -/
def Transaction.totalOutputValue (tx : Transaction) :
    Except BondError Nat :=
  totalOutputValueAux tx.outputs 0

/-! ## Chain state (`consensus.rs`) -/

/-- `ChainState`: the consensus rules, the block list, the UTXO index, the
height counter (a `u32` in the source, modelled as `Nat`) and the total
work. -/
structure ChainState where
  consensus : Consensus
  blocks : List Block
  utxoSet : UtxoMap
  height : Nat
  totalWork : Nat
  deriving DecidableEq

/-- The integer fields of `ChainStats`.  The remaining field
`average_block_time` is an `f64` computed by `calculate_average_block_time`
from `blocks` alone, so it is determined by the `blocks` component; the
claims about it are settled through `blocks`. -/
structure ChainStats where
  height : Nat
  totalTransactions : Nat
  utxoCount : Nat
  totalSupply : Nat
  deriving DecidableEq

/-- `ChainState::stats` (integer fields). -/
def ChainState.stats (cs : ChainState) : ChainStats :=
  { height := cs.height
    totalTransactions := (cs.blocks.map (·.transactions.length)).sum
    utxoCount := cs.utxoSet.length
    totalSupply := (cs.utxoSet.map (·.2.value)).sum }

/-- The loop of `ChainState::validate_transaction` that requires every
input to reference a present UTXO; returns the first missing reference. -/
def findMissingInput (m : UtxoMap) : List TransactionInput → Option UtxoId
  | [] => none
  | i :: rest =>
    if UtxoMap.containsKey m i.previousOutput then findMissingInput m rest
    else some i.previousOutput

/-- `ChainState::validate_transaction`: structural validation, the
coinbase-position rule, UTXO existence, and fee validation. -/
def ChainState.validateTransaction (cs : ChainState) (tx : Transaction)
    (isCoinbasePos : Bool) : Except BondError Unit :=
  match tx.validate with
  | .error e => .error e
  | .ok () =>
    if isCoinbasePos then
      if !tx.isCoinbase then
        .error (.InvalidTransaction
          (r"First transaction in block must be coinbase"))
      else .ok ()
    else if tx.isCoinbase then
      .error (.InvalidTransaction
        (r"Coinbase transaction can only be first in block"))
    else
      match findMissingInput cs.utxoSet tx.inputs with
      | some u =>
        .error (.InvalidTransaction ((r"Referenced UTXO not found: ") ++
          u.toDisplay))
      | none =>
        match tx.totalInputValue cs.utxoSet with
        | .error e => .error e
        | .ok inputValue =>
          match tx.totalOutputValue with
          | .error e => .error e
          | .ok outputValue =>
            if inputValue < outputValue then
              .error (.InsufficientFunds outputValue inputValue)
            else .ok ()

/-- The per-transaction validation loop of `ChainState::add_block`
(`tx_index == 0` marks the coinbase position). -/
def validateTxList (cs : ChainState) :
    List Transaction → Nat → Except BondError Unit
  | [], _ => .ok ()
  | tx :: rest, idx =>
    match cs.validateTransaction tx (idx == 0) with
    | .error e => .error e
    | .ok () => validateTxList cs rest (idx + 1)

/-- The input-removal loop of `ChainState::apply_transaction`: it mutates
the index one removal at a time, so on a `DoubleSpending` error the
removals already performed persist. -/
def removeInputs : List TransactionInput → UtxoMap →
    Except BondError Unit × UtxoMap
  | [], m => (.ok (), m)
  | i :: rest, m =>
    match UtxoMap.remove m i.previousOutput with
    | (none, m2) => (.error (.DoubleSpending i.previousOutput.toDisplay), m2)
    | (some _, m2) => removeInputs rest m2

/-- The output-insertion loop of `ChainState::apply_transaction`. -/
def insertOutputs (txHash : Nat) :
    List TransactionOutput → Nat → UtxoMap → UtxoMap
  | [], _, m => m
  | o :: rest, idx, m =>
    insertOutputs txHash rest (idx + 1) (UtxoMap.insert m ⟨txHash, idx⟩ o)

/-- `ChainState::apply_transaction`: spend the inputs (except for a
coinbase) and add the new outputs; the returned map reflects any partial
mutation on the error path. -/
def applyTransaction (env : Env) (m : UtxoMap) (tx : Transaction) :
    Except BondError Unit × UtxoMap :=
  if tx.isCoinbase then (.ok (), insertOutputs (env.txHash tx) tx.outputs 0 m)
  else
    match removeInputs tx.inputs m with
    | (.error e, m2) => (.error e, m2)
    | (.ok (), m2) => (.ok (), insertOutputs (env.txHash tx) tx.outputs 0 m2)

/-- `ChainState::apply_block`: apply the transactions in order, stopping at
the first error but keeping the mutations already made. -/
def applyBlockTxs (env : Env) :
    List Transaction → UtxoMap → Except BondError Unit × UtxoMap
  | [], m => (.ok (), m)
  | tx :: rest, m =>
    match applyTransaction env m tx with
    | (.error e, m2) => (.error e, m2)
    | (.ok (), m2) => applyBlockTxs env rest m2

/-- `ChainState::add_block`: consensus validation, per-transaction
validation, application to the UTXO index, then append the block and bump
the height.  The state component of the result is the value of `self`
after the call — on an application-phase error it carries the partially
mutated UTXO index, exactly as the `&mut self` method does. -/
def ChainState.addBlock (env : Env) (cs : ChainState) (block : Block) :
    Except BondError Unit × ChainState :=
  match (Consensus.validateBlock env cs.consensus block cs.blocks).1 with
  | .error e => (.error e, cs)
  | .ok () =>
    match validateTxList cs block.transactions 0 with
    | .error e => (.error e, cs)
    | .ok () =>
      match applyBlockTxs env block.transactions cs.utxoSet with
      | (.error e, m2) => (.error e, { cs with utxoSet := m2 })
      | (.ok (), m2) =>
        (.ok (), { cs with utxoSet := m2,
                           blocks := cs.blocks ++ [block],
                           height := cs.height + 1 })

/-- The pre-genesis state built by `ChainState::new_with_genesis` before it
adds the genesis block. -/
def ChainState.initial : ChainState :=
  { consensus := Consensus.new, blocks := [], utxoSet := [],
    height := 0, totalWork := 0 }

/-- `ChainState::new_with_genesis`: add the genesis block to the empty
state; on failure the partially built value is dropped and only the error
is returned. -/
def ChainState.newWithGenesis (env : Env) (genesis : Block) :
    Except BondError ChainState :=
  match ChainState.addBlock env ChainState.initial genesis with
  | (.ok (), cs) => .ok cs
  | (.error e, _) => .error e

/-- `ChainState::height`. -/
def ChainState.heightQ (cs : ChainState) : Nat := cs.height

/-- `ChainState::get_blocks_range`: each bound is clamped to the block
count, then the slice `[start_idx..end_idx]` is taken; Rust slicing panics
when `start_idx > end_idx`, modelled as `none`.  (`end` is a Lean keyword,
so the second parameter is named `stop`.) -/
def ChainState.getBlocksRange (cs : ChainState) (start stop : Nat) :
    Option (List Block) :=
  let startIdx := min start cs.blocks.length
  let endIdx := min stop cs.blocks.length
  if startIdx ≤ endIdx then
    some ((cs.blocks.drop startIdx).take (endIdx - startIdx))
  else none

/-! ## Shape of `add_block` results -/

/-- On any error, `add_block` leaves the block list, the height, the
consensus rules and the total work exactly as they were; moreover an error
raised before the application phase leaves the whole state (including the
UTXO index) unchanged. -/
theorem addBlock_error_state (env : Env) (cs : ChainState) (block : Block)
    (e : BondError) (cs' : ChainState)
    (h : ChainState.addBlock env cs block = (.error e, cs')) :
    cs'.consensus = cs.consensus ∧ cs'.blocks = cs.blocks ∧
    cs'.height = cs.height ∧ cs'.totalWork = cs.totalWork := by
  rw [ChainState.addBlock] at h
  repeat' split at h
  all_goals injection h with h1 h2
  all_goals subst h2
  all_goals simp_all

/-- On success, `add_block` appends the block, bumps the height by one and
keeps the consensus rules and total work. -/
theorem addBlock_ok_state (env : Env) (cs : ChainState) (block : Block)
    (cs' : ChainState)
    (h : ChainState.addBlock env cs block = (.ok (), cs')) :
    cs'.consensus = cs.consensus ∧ cs'.blocks = cs.blocks ++ [block] ∧
    cs'.height = cs.height + 1 ∧ cs'.totalWork = cs.totalWork := by
  rw [ChainState.addBlock] at h
  repeat' split at h
  all_goals injection h with h1 h2
  all_goals subst h2
  all_goals simp_all

/-- A validation-phase error (consensus validation or per-transaction
validation) returns the state fully unchanged. -/
theorem addBlock_validation_error_state (env : Env) (cs : ChainState)
    (block : Block)
    (h : (Consensus.validateBlock env cs.consensus block cs.blocks).1 ≠
        .ok () ∨
      validateTxList cs block.transactions 0 ≠ .ok ()) :
    (ChainState.addBlock env cs block).2 = cs := by
  rw [ChainState.addBlock]
  rcases h with h | h
  · cases hv : (Consensus.validateBlock env cs.consensus block cs.blocks).1
      with
    | error e => rfl
    | ok u => cases u; exact absurd hv h
  · cases hv : (Consensus.validateBlock env cs.consensus block cs.blocks).1
      with
    | error e => rfl
    | ok u =>
      cases u
      cases ht : validateTxList cs block.transactions 0 with
      | error e => rfl
      | ok u2 => cases u2; exact absurd ht h

/-! ## C1 — `add_block` is not atomic on application errors -/

/-- C1 amended: after any error from `add_block` the block list, height,
consensus rules and total work are unchanged (and hence the `height`,
`total_transactions` and `average_block_time` parts of `stats()`), and an
error raised during the validation phases leaves the whole state — UTXO
index included — unchanged; but an error raised while applying a
transaction in the middle of the block (such as `DoubleSpending`) leaves
the partial UTXO-index mutations of the already-applied part in place, so
the UTXO index and `stats()` may differ from their values before the
call. -/
theorem add_block_error_keeps_blocks_and_height (env : Env)
    (cs : ChainState) (block : Block) (e : BondError) (cs' : ChainState)
    (h : ChainState.addBlock env cs block = (.error e, cs')) :
    (cs'.blocks = cs.blocks ∧ cs'.height = cs.height ∧
      cs'.consensus = cs.consensus ∧ cs'.totalWork = cs.totalWork) ∧
    ((Consensus.validateBlock env cs.consensus block cs.blocks).1 ≠
        .ok () ∨ validateTxList cs block.transactions 0 ≠ .ok () →
      cs' = cs) := by
  obtain ⟨hc, hb, hh, hw⟩ := addBlock_error_state env cs block e cs' h
  refine ⟨⟨hb, hh, hc, hw⟩, fun hv => ?_⟩
  have := addBlock_validation_error_state env cs block hv
  rw [h] at this
  exact this

/-- The chain state of the C1 counterexample: one spendable UTXO. -/
def csCE : ChainState :=
  { consensus := Consensus.new, blocks := [],
    utxoSet := [(⟨9, 0⟩, ⟨100, Script.new []⟩)], height := 0,
    totalWork := 0 }

/-- First spend of the counterexample UTXO. -/
def txSpend1 : Transaction :=
  { version := 1, inputs := [⟨⟨9, 0⟩, Script.new [], 0⟩],
    outputs := [⟨40, Script.new []⟩], locktime := 1, timestamp := 0 }

/-- Second spend of the same UTXO, in the same block. -/
def txSpend2 : Transaction :=
  { version := 1, inputs := [⟨⟨9, 0⟩, Script.new [], 0⟩],
    outputs := [⟨30, Script.new []⟩], locktime := 2, timestamp := 0 }

/-- The counterexample block: a coinbase and two conflicting spends; its
header's Merkle root is the one `sampleEnv` computes for these
transactions. -/
def blockCE : Block :=
  { header := { version := 1, previousHash := 0, merkleRoot := 18,
                timestamp := 0, difficultyTarget := 5, nonce := 0 },
    transactions := [Transaction.coinbase 50 [] 0, txSpend1, txSpend2] }

/-- The state `add_block` leaves behind on the counterexample: the
coinbase output and the first spend's output were inserted and the spent
UTXO removed before the `DoubleSpending` error fired. -/
def csCEafter : ChainState :=
  { csCE with
    utxoSet := [(⟨0, 0⟩, ⟨50, Script.new []⟩),
                (⟨1, 0⟩, ⟨40, Script.new []⟩)] }

/-- Evaluation of `add_block` on the counterexample input. -/
theorem addBlock_csCE_eval :
    ChainState.addBlock sampleEnv csCE blockCE =
      (.error (.DoubleSpending (UtxoId.toDisplay ⟨9, 0⟩)), csCEafter) := by
  have hmr : calculateMerkleRoot sampleEnv blockCE = 18 := by
    simp [calculateMerkleRoot, merkleLoop, merkleLevel, blockCE, sampleEnv,
      Transaction.coinbase, txSpend1, txSpend2]
  have hbv : Block.validate sampleEnv blockCE = .ok () := by
    unfold Block.validate
    rw [hmr]
    rfl
  have hvb : (Consensus.validateBlock sampleEnv csCE.consensus blockCE
      csCE.blocks).1 = .ok () := by
    unfold Consensus.validateBlock
    rw [hbv]
    rfl
  have hstep : ChainState.addBlock sampleEnv csCE blockCE =
      match applyBlockTxs sampleEnv blockCE.transactions csCE.utxoSet with
      | (.error e, m2) => (.error e, { csCE with utxoSet := m2 })
      | (.ok (), m2) =>
        (.ok (), { csCE with utxoSet := m2,
                             blocks := csCE.blocks ++ [blockCE],
                             height := csCE.height + 1 }) := by
    rw [ChainState.addBlock, hvb]
    rfl
  rw [hstep]
  rfl

/-- Counterexample to C1 as stated: `add_block` returns a `DoubleSpending`
error raised in the middle of applying the block, yet the UTXO index — and
therefore `stats()` — has changed. -/
theorem add_block_not_atomic :
    (ChainState.addBlock sampleEnv csCE blockCE).1 =
      .error (.DoubleSpending (UtxoId.toDisplay ⟨9, 0⟩)) ∧
    (ChainState.addBlock sampleEnv csCE blockCE).2.utxoSet ≠
      csCE.utxoSet ∧
    (ChainState.addBlock sampleEnv csCE blockCE).2.stats ≠ csCE.stats := by
  rw [addBlock_csCE_eval]
  refine ⟨rfl, by decide, by decide⟩

/-- Witness for the amended C1 at the counterexample input. -/
theorem add_block_error_keeps_blocks_and_height_witness :
    ChainState.addBlock sampleEnv csCE blockCE =
      (.error (.DoubleSpending (UtxoId.toDisplay ⟨9, 0⟩)), csCEafter) ∧
    csCEafter.blocks = csCE.blocks ∧ csCEafter.height = csCE.height :=
  ⟨addBlock_csCE_eval,
   (add_block_error_keeps_blocks_and_height sampleEnv csCE blockCE _
       csCEafter addBlock_csCE_eval).1.1,
   (add_block_error_keeps_blocks_and_height sampleEnv csCE blockCE _
       csCEafter addBlock_csCE_eval).1.2.1⟩

/-! ## C9 — height tracks the block list -/

/-- The chain states reachable through `new_with_genesis` followed by any
sequence of `add_block` calls; a failed `add_block` keeps the (possibly
partially mutated) state, so the step case does not require success. -/
inductive Reachable (env : Env) : ChainState → Prop where
  | genesis (g : Block) (cs : ChainState) :
      ChainState.newWithGenesis env g = .ok cs → Reachable env cs
  | step (cs : ChainState) (b : Block) : Reachable env cs →
      Reachable env (ChainState.addBlock env cs b).2

/-- C9: in every reachable chain state `height()` equals the number of
blocks in the block list, and every successful `add_block` increases each
by exactly one. -/
theorem height_equals_block_count (env : Env) :
    (∀ cs, Reachable env cs → cs.height = cs.blocks.length) ∧
    (∀ cs block cs',
      ChainState.addBlock env cs block = (.ok (), cs') →
        cs'.height = cs.height + 1 ∧
        cs'.blocks.length = cs.blocks.length + 1) := by
  have hsucc : ∀ cs block cs',
      ChainState.addBlock env cs block = (.ok (), cs') →
        cs'.height = cs.height + 1 ∧
        cs'.blocks.length = cs.blocks.length + 1 := by
    intro cs block cs' h
    obtain ⟨-, hb, hh, -⟩ := addBlock_ok_state env cs block cs' h
    rw [hb, hh]
    simp
  refine ⟨?_, hsucc⟩
  intro cs h
  induction h with
  | genesis g cs hg =>
    rw [ChainState.newWithGenesis] at hg
    cases hab : ChainState.addBlock env ChainState.initial g with
    | mk r cs2 =>
      rw [hab] at hg
      cases r with
      | error e => simp at hg
      | ok u =>
        cases u
        simp only [Except.ok.injEq] at hg
        subst hg
        obtain ⟨hh, hb⟩ := hsucc ChainState.initial g cs2 hab
        rw [hh, hb]
        rfl
  | step cs b hr ih =>
    cases hab : ChainState.addBlock env cs b with
    | mk r cs2 =>
      show cs2.height = cs2.blocks.length
      cases r with
      | error e =>
        obtain ⟨-, hb, hh, -⟩ := addBlock_error_state env cs b e cs2 hab
        rw [hb, hh]
        exact ih
      | ok u =>
        cases u
        obtain ⟨hh, hb⟩ := hsucc cs b cs2 hab
        rw [hh, hb, ih]

/-- The genesis-style block accepted by `sampleEnv` from the empty state:
a single coinbase whose hash is also the header's Merkle root. -/
def gBlock : Block :=
  { header := { version := 1, previousHash := 0, merkleRoot := 0,
                timestamp := 0, difficultyTarget := 5, nonce := 0 },
    transactions := [Transaction.coinbase 50 [] 0] }

/-- The chain state after adding `gBlock` to the empty state. -/
def csGen : ChainState :=
  { consensus := Consensus.new, blocks := [gBlock],
    utxoSet := [(⟨0, 0⟩, ⟨50, Script.new []⟩)], height := 1,
    totalWork := 0 }

/-- Witness for C9: a concrete reachable state whose height equals its
block count. -/
theorem height_equals_block_count_witness :
    Reachable sampleEnv csGen ∧ csGen.height = csGen.blocks.length := by
  have hmr : calculateMerkleRoot sampleEnv gBlock = 0 := by
    simp [calculateMerkleRoot, merkleLoop, merkleLevel, gBlock, sampleEnv,
      Transaction.coinbase]
  have hbv : Block.validate sampleEnv gBlock = .ok () := by
    unfold Block.validate
    rw [hmr]
    rfl
  have hvb : (Consensus.validateBlock sampleEnv
      ChainState.initial.consensus gBlock ChainState.initial.blocks).1 =
      .ok () := by
    unfold Consensus.validateBlock
    rw [hbv]
    rfl
  have hab : ChainState.addBlock sampleEnv ChainState.initial gBlock =
      (.ok (), csGen) := by
    rw [ChainState.addBlock, hvb]
    rfl
  have hg : ChainState.newWithGenesis sampleEnv gBlock = .ok csGen := by
    rw [ChainState.newWithGenesis, hab]
  exact ⟨Reachable.genesis gBlock csGen hg,
    (height_equals_block_count sampleEnv).1 csGen
      (Reachable.genesis gBlock csGen hg)⟩

/-! ## C10 — `get_blocks_range` -/

/-- C10: under the precondition `start ≤ end` the slice indexing is total —
`get_blocks_range` does not panic and returns exactly the blocks at
positions `min(start, count) ≤ p < min(end, count)`; each bound is clamped
to the block count independently, and only the precondition keeps
`start_idx ≤ end_idx`. -/
theorem get_blocks_range_safe (cs : ChainState) (start stop : Nat)
    (h : start ≤ stop) :
    (cs.getBlocksRange start stop).isSome = true ∧
    ∀ l, cs.getBlocksRange start stop = some l →
      l.length =
        min stop cs.blocks.length - min start cs.blocks.length ∧
      ∀ i (hi : i < l.length)
        (hj : min start cs.blocks.length + i < cs.blocks.length),
        l.get ⟨i, hi⟩ =
          cs.blocks.get ⟨min start cs.blocks.length + i, hj⟩ := by
  have hse : min start cs.blocks.length ≤ min stop cs.blocks.length := by
    omega
  rw [ChainState.getBlocksRange]
  simp only [hse, if_true]
  refine ⟨rfl, ?_⟩
  intro l hl
  have hl2 : l = (cs.blocks.drop (min start cs.blocks.length)).take
      (min stop cs.blocks.length - min start cs.blocks.length) := by
    exact (Option.some.inj hl).symm
  subst hl2
  constructor
  · rw [List.length_take, List.length_drop]
    omega
  · intro i hi hj
    simp only [List.get_eq_getElem, List.getElem_take, List.getElem_drop]

/-- Witness for C10 on a concrete three-block state with `end` past the
block count. -/
theorem get_blocks_range_safe_witness :
    (1 : Nat) ≤ 5 ∧
      (ChainState.getBlocksRange
        { consensus := Consensus.new, blocks := [gBlock, gBlock, gBlock],
          utxoSet := [], height := 3, totalWork := 0 } 1 5).isSome =
        true :=
  ⟨by decide,
   (get_blocks_range_safe
       { consensus := Consensus.new, blocks := [gBlock, gBlock, gBlock],
         utxoSet := [], height := 3, totalWork := 0 } 1 5 (by decide)).1⟩

/-- Witness for C5: the characterization instantiated at a concrete
coinbase transaction. -/
theorem validate_structural_characterization_witness :
    (Transaction.coinbase 50 [] 0).validate = .ok () ↔
      ¬((Transaction.coinbase 50 [] 0).version = 0 ∨
        ((Transaction.coinbase 50 [] 0).isCoinbase = false ∧
          (Transaction.coinbase 50 [] 0).inputs = []) ∨
        (Transaction.coinbase 50 [] 0).outputs = [] ∨
        ((Transaction.coinbase 50 [] 0).isCoinbase = true ∧
          (Transaction.coinbase 50 [] 0).inputs.length ≠ 1) ∨
        (∃ o ∈ (Transaction.coinbase 50 [] 0).outputs, o.value = 0)) :=
  (validate_structural_characterization (Transaction.coinbase 50 [] 0)).1

/-- Witness for C6: the two miner error values are distinct at a concrete
header. -/
theorem mine_block_contract_witness :
    miningStoppedError gBlock.header ≠ nonceExhaustedError gBlock.header :=
  (mine_block_contract sampleEnv (fun _ => false) gBlock.header).2

end Bond
